import Mathlib

/-!
Verification of the coordination and execution substrate of the
crypto-agents trading engine.

The embedding below translates, over exact rational arithmetic:
* `app/agents/execution.py` — the order-book helpers (`_book_mid_spread`,
  `_post_only_price`), the paper branch of `_execute_post_only`, and the
  body of the `ExecutionAgent.run` consume loop;
* `app/core/signals.py` — the `SignalBus` pub/sub (same-loop delivery);
* `app/agents/base.py` — the `BaseAgent` lifecycle wrapper and status;
* `app/api/main.py` — the kill-switch gate on the agent start endpoints;
* the Position Ledger (`app/core/state.py`), whose source file is not
  present in the repository snapshot and is therefore modelled from the
  specification (section 4.5).
-/

namespace CryptoAgents

/-- Side of a trade signal. `app/core/signals.py` documents `side` as the
string "buy" or "sell"; every producer publishes exactly one of the two. -/
inductive Side where
  | buy
  | sell
deriving DecidableEq, Repr

/-- `Signal` dataclass from `app/core/signals.py` (timestamp omitted:
no consumer in the embedded code reads it). -/
structure Signal where
  symbol : String
  side : Side
  qty : ℚ
  reason : String
deriving DecidableEq, Repr

/-- An order book as returned by the price feed: bid and ask levels as
(price, size) pairs, best level first. -/
structure Book where
  bids : List (ℚ × ℚ)
  asks : List (ℚ × ℚ)
deriving DecidableEq, Repr

/-- `_book_mid_spread` from `app/agents/execution.py`. The Python version
returns `(nan, nan, inf)` when a side is empty or the top levels are not
`0 < best_bid < best_ask`; the only effect of that sentinel in the embedded
code is to force the wide-spread skip, so it is rendered as `none`.
Otherwise returns `(mid, spread, spread_bps)`. -/
def book_mid_spread (ob : Book) : Option (ℚ × ℚ × ℚ) :=
  match ob.bids, ob.asks with
  | (bb, _) :: _, (ba, _) :: _ =>
      if bb > 0 ∧ ba > 0 ∧ ba > bb then
        let mid := (bb + ba) / 2
        let spr := ba - bb
        some (mid, spr, spr / mid * 10000)
      else
        none
  | _, _ => none

/-- `POST_ONLY_K = 0.3` from `app/agents/execution.py`. -/
def POST_ONLY_K : ℚ := 0.3

/-- `MAX_SPREAD_BPS_EXEC = 3.0` from `app/agents/execution.py`: the
hard-coded spread ceiling (in basis points) of the execution agent. -/
def MAX_SPREAD_BPS_EXEC : ℚ := 3

/-- `TAKER_FEE_BPS_SIM = 6.0` from `app/agents/execution.py`. -/
def TAKER_FEE_BPS_SIM : ℚ := 6

/-- `_post_only_price` from `app/agents/execution.py`:
`max(0.0, mid - k*spr)` for a buy, `mid + k*spr` for a sell. -/
def post_only_price (side : Side) (mid spr : ℚ) : ℚ :=
  match side with
  | .buy => max 0 (mid - POST_ONLY_K * spr)
  | .sell => mid + POST_ONLY_K * spr

/-- Fill result dictionary returned by `ExecutionAgent._execute_post_only`. -/
structure Fill where
  filled : ℚ
  avg_px : Option ℚ
  fees : ℚ
  maker : Bool
deriving DecidableEq, Repr

/-- The PAPER branch of `ExecutionAgent._execute_post_only`
(`app/agents/execution.py` lines 58-120), with the spread ceiling as an
explicit parameter; the source instantiates it with the module constant
`MAX_SPREAD_BPS_EXEC`. A failed book gate or a spread above the ceiling
yields the skip result `{filled: 0, avg_px: None, fees: 0, maker: True}`. -/
def execute_post_only_paper_with (maxSpreadBps : ℚ) (ob : Book) (side : Side)
    (qty : ℚ) : Fill :=
  match book_mid_spread ob with
  | none => { filled := 0, avg_px := none, fees := 0, maker := true }
  | some (mid, spr, sprBps) =>
      if sprBps > maxSpreadBps then
        { filled := 0, avg_px := none, fees := 0, maker := true }
      else
        let limit_px := post_only_price side mid spr
        let simulated_mid_move := 0.25 * spr
        let exec_price :=
          match side with
          | .buy => mid - 0.1 * spr - simulated_mid_move
          | .sell => mid + 0.1 * spr + simulated_mid_move
        if (side = .buy ∧ exec_price ≤ limit_px) ∨
            (side = .sell ∧ exec_price ≥ limit_px) then
          { filled := qty, avg_px := some limit_px, fees := 0, maker := true }
        else
          let penalty := 0.5 * spr
          let px :=
            match side with
            | .buy => exec_price + penalty
            | .sell => exec_price - penalty
          { filled := qty, avg_px := some px,
            fees := TAKER_FEE_BPS_SIM / 10000 * |px * qty|, maker := false }

/-- `_execute_post_only` in paper mode at the source's own ceiling. -/
def execute_post_only_paper (ob : Book) (side : Side) (qty : ℚ) : Fill :=
  execute_post_only_paper_with MAX_SPREAD_BPS_EXEC ob side qty

/-- Whether the spread gate of `_execute_post_only` passes for a book: the
point past which an order is placed (in live mode this is exactly where
`exchange.create_order` is invoked, `app/agents/execution.py` line 70; in
paper mode, where the simulated fill is produced). -/
def spread_gate_passes (ob : Book) : Bool :=
  match book_mid_spread ob with
  | none => false
  | some (_, _, sprBps) => decide (sprBps ≤ MAX_SPREAD_BPS_EXEC)

/-- The settings the consume loop reads at entry
(`app/agents/execution.py` lines 123-128, `app/core/config.py`). -/
structure ExecSettings where
  maxPosition : ℚ
  longOnly : Bool
  orderSize : ℚ
  symbols : List String

/-- The per-symbol position book of the consume loop
(`positions: dict[str, float]`, initialised to `0.0` per symbol). -/
abbrev Positions := String → ℚ

/-- Initial position book of the consume loop: all zero. -/
def init_positions : Positions := fun _ => 0

/-- Observable outcome of one consume-loop iteration: whether the intent
reached order placement (spread gate passed inside
`_execute_post_only`), and the fill dictionary if execution was reached. -/
structure StepResult where
  placed : Bool
  fill : Option Fill
deriving DecidableEq, Repr

/-- A rejected / filtered intent: nothing placed, nothing filled. -/
def StepResult.none : StepResult := { placed := false, fill := Option.none }

/-- One iteration of the `ExecutionAgent.run` consume loop
(`app/agents/execution.py` lines 130-160), paper mode, on a consumed
signal with the book the price feed returns for it:
symbol filter, `qty = float(sig.qty or order_size)`, long-only guard,
position cap clip, execution, and the `fill["filled"] <= 0` discard
before the position update. -/
def run_step (cfg : ExecSettings) (pos : Positions) (sig : Signal)
    (ob : Book) : Positions × StepResult :=
  if sig.symbol ∉ cfg.symbols then
    (pos, StepResult.none)
  else
    let side := sig.side
    let qty0 := if sig.qty = 0 then cfg.orderSize else sig.qty
    if cfg.longOnly ∧ side = .sell ∧ pos sig.symbol ≤ 0 then
      (pos, StepResult.none)
    else
      let capped := side = .buy ∧ pos sig.symbol + qty0 > cfg.maxPosition
      let qty := if capped then max 0 (cfg.maxPosition - pos sig.symbol)
        else qty0
      if capped ∧ qty ≤ 0 then
        (pos, StepResult.none)
      else
        let fill := execute_post_only_paper ob side qty
        let res : StepResult := ⟨spread_gate_passes ob, some fill⟩
        if fill.filled ≤ 0 then
          (pos, res)
        else
          let delta := match side with | .buy => qty | .sell => -qty
          (Function.update pos sig.symbol (pos sig.symbol + delta), res)

/-- Folding the consume loop over a list of consumed (signal, book)
events. -/
def run_steps (cfg : ExecSettings) (pos : Positions)
    (evs : List (Signal × Book)) : Positions :=
  evs.foldl (fun p ev => (run_step cfg p ev.1 ev.2).1) pos

/-- The process-wide kill switch together with the consume loop's position
book. The kill switch is the `cap_kill_switch` gauge of
`app/core/metrics.py` (1 = enabled, 0 = disabled), read only by the agent
start endpoints of `app/api/main.py`. -/
structure SystemState where
  kill : Bool
  positions : Positions

/-- Initial system state: kill switch disabled, flat book. -/
def init_system : SystemState := ⟨false, init_positions⟩

/-- An event the system reacts to: an operator toggling the kill-switch
gauge through the control surface (the setter itself is outside the
repository snapshot; `app/api/main.py` only reads the gauge), or the
consume loop receiving a signal with the book the price feed returns. -/
inductive SysEvent where
  | opSetKill (b : Bool)
  | intent (sig : Signal) (ob : Book)

/-- One system transition. The consume-loop branch is `run_step`
verbatim; nothing in `ExecutionAgent.run` reads or writes the
kill-switch gauge, so the `kill` field passes through unchanged. Returns
the new state and whether an order was placed by the event. -/
def sys_step (cfg : ExecSettings) (st : SystemState) :
    SysEvent → SystemState × Bool
  | .opSetKill b => (⟨b, st.positions⟩, false)
  | .intent sig ob =>
      let r := run_step cfg st.positions sig ob
      (⟨st.kill, r.1⟩, r.2.placed)

/-- Folding system events from a state, counting the orders placed while
the kill switch was enabled at the moment the intent was consumed. -/
def sys_run (cfg : ExecSettings) (st : SystemState) (evs : List SysEvent) :
    SystemState × ℕ :=
  evs.foldl
    (fun acc ev =>
      let r := sys_step cfg acc.1 ev
      (r.1, acc.2 + if acc.1.kill ∧ r.2 then 1 else 0))
    (st, 0)

/-- `POST /api/agents/start_all` (`app/api/main.py` lines 44-49): raises
HTTP 409 when the kill-switch gauge reads 1, otherwise starts all
agents. -/
def api_agents_start_all (kill : Bool) : Except ℕ Unit :=
  if kill then .error 409 else .ok ()

/-! ### Signal bus (`app/core/signals.py`)

Same-loop delivery: `publish` does `q.put_nowait(sig)` on every
subscriber's `asyncio.Queue()`, which is created with no `maxsize` and
hence never rejects a put; `get()` pops in FIFO order. A subscriber queue
is its pending-signal list, oldest first. -/

/-- Subscriber queues of a `SignalBus` (each an unbounded FIFO). -/
structure SignalBus where
  subs : List (List Signal)
deriving DecidableEq, Repr

/-- `SignalBus.subscribe`: registers a fresh empty queue. -/
def SignalBus.subscribeQ (bus : SignalBus) : SignalBus :=
  ⟨bus.subs ++ [[]]⟩

/-- `SignalBus.publish` (same-loop case): `put_nowait` appends the signal
at the tail of every subscriber queue; the unbounded queue never raises,
so no subscriber is dropped and no queued signal is evicted. -/
def SignalBus.publishQ (bus : SignalBus) (sig : Signal) : SignalBus :=
  ⟨bus.subs.map (fun q => q ++ [sig])⟩

/-- Publishing a list of signals in order. -/
def SignalBus.publishAll (bus : SignalBus) (sigs : List Signal) : SignalBus :=
  sigs.foldl SignalBus.publishQ bus

/-! ### Worker supervisor (`app/agents/base.py`) -/

/-- How a worker's `run()` coroutine ends: normal return, cancellation
(`asyncio.CancelledError`), or any other raised fault. -/
inductive RunOutcome where
  | ok
  | cancelled
  | fault
deriving DecidableEq, Repr

/-- Observable result of `BaseAgent._run_wrapper` around a finished run:
whether anything propagated to the awaiting caller, whether the crash was
logged, and the `_running` flag after the `finally` clause. -/
structure WrapResult where
  raisedToCaller : Bool
  loggedCrash : Bool
  runningAfter : Bool
deriving DecidableEq, Repr

/-- `BaseAgent._run_wrapper` (`app/agents/base.py` lines 49-57):
`except asyncio.CancelledError: pass`, `except Exception: log.exception`,
`finally: self._running.clear()`. -/
def run_wrapper : RunOutcome → WrapResult
  | .ok => ⟨false, false, false⟩
  | .cancelled => ⟨false, false, false⟩
  | .fault => ⟨false, true, false⟩

/-- The lifecycle facts `BaseAgent.status` reads: whether `_task` exists,
whether it is done, and the `_running` event. -/
structure AgentLifecycle where
  hasTask : Bool
  taskDone : Bool
  runningFlag : Bool
deriving DecidableEq, Repr

/-- `BaseAgent.status` (`app/agents/base.py` lines 27-29): `"running"` if
the task exists, is not done and the flag is set; `"stopped"` otherwise. -/
def agent_status (a : AgentLifecycle) : String :=
  if a.hasTask && !a.taskDone && a.runningFlag then "running" else "stopped"

/-- A worker that was never started: no task, flag clear. -/
def idle_agent : AgentLifecycle := ⟨false, false, false⟩

/-- A worker whose wrapped loop finished on the given outcome: the task is
done and the `finally` clause cleared the `_running` flag. -/
def agent_after (o : RunOutcome) : AgentLifecycle :=
  ⟨true, true, (run_wrapper o).runningAfter⟩

/-! ### Position ledger

`app/api/main.py` imports `Portfolio` from `app.core.state` and
`AgentManager` is said to hold one, but `app/core/state.py` itself is not
part of the repository snapshot; the fill arithmetic below is modelled
from the specification. -/

/-- Per-symbol entry of the Position Ledger: signed quantity, average
entry price, as held by `Portfolio` (`app/core/state.py`). -/
structure PortfolioPos where
  qty : ℚ
  avgEntry : ℚ
deriving DecidableEq, Repr

/-- A flat ledger entry. -/
def flat_pos : PortfolioPos := ⟨0, 0⟩

/-- Modelled from the spec: the buy branch of `Portfolio.applyFill`
(`app/core/state.py`, absent from the snapshot; specification section 4.5):
new position = old + quantity; new average price is the weighted average
`(old_avg*old_qty + price*quantity) / new_qty`, guarded against a zero
denominator (average entry price resets to 0 whenever quantity is 0). -/
def applyFillBuy (p : PortfolioPos) (price qty : ℚ) : PortfolioPos :=
  let newQty := p.qty + qty
  { qty := newQty,
    avgEntry := if newQty = 0 then 0
      else (p.avgEntry * p.qty + price * qty) / newQty }

/-- Modelled from the spec: the sell branch of `Portfolio.applyFill`
(`app/core/state.py`, absent from the snapshot; specification section 4.5):
closing quantity `min(quantity, max(old_position, 0))`; realized PnL delta
`(price - old_avg) * closing_quantity`; new position
`max(old_position - quantity, 0)`; average price resets to 0 when the new
position is exactly 0. Returns the new entry and the PnL delta. -/
def applyFillSell (p : PortfolioPos) (price qty : ℚ) : PortfolioPos × ℚ :=
  let closing := min qty (max p.qty 0)
  let pnlDelta := (price - p.avgEntry) * closing
  let newQty := max (p.qty - qty) 0
  (⟨newQty, if newQty = 0 then 0 else p.avgEntry⟩, pnlDelta)

/-- A single-symbol view of the `Portfolio` ledger: position entry plus
the running daily realized PnL. -/
structure Ledger where
  pos : PortfolioPos
  realizedDay : ℚ
deriving DecidableEq, Repr

/-- Modelled from the spec: `Portfolio.applyFill` (`app/core/state.py`,
absent from the snapshot; specification section 4.5), dispatching on side
and accumulating realized PnL into the running daily total. -/
def applyFill (l : Ledger) (side : Side) (price qty : ℚ) : Ledger :=
  match side with
  | .buy => ⟨applyFillBuy l.pos price qty, l.realizedDay⟩
  | .sell =>
      let r := applyFillSell l.pos price qty
      ⟨r.1, l.realizedDay + r.2⟩

/-- Folding the buy branch over a list of (price, quantity) fills. -/
def applyBuys (p : PortfolioPos) (fs : List (ℚ × ℚ)) : PortfolioPos :=
  fs.foldl (fun a f => applyFillBuy a f.1 f.2) p

/-- Total quantity of a list of (price, quantity) fills. -/
def totalQty (fs : List (ℚ × ℚ)) : ℚ :=
  (fs.map (fun f => f.2)).sum

/-- Total notional (sum of price·quantity) of a list of fills. -/
def totalNotional (fs : List (ℚ × ℚ)) : ℚ :=
  (fs.map (fun f => f.1 * f.2)).sum

/-- Replacing a batch of fills by one grouped fill at the batch's
volume-weighted average price and total quantity. -/
def combineFills (fs : List (ℚ × ℚ)) : ℚ × ℚ :=
  (totalNotional fs / totalQty fs, totalQty fs)

/-! ### Concrete instances used by counterexamples and witnesses -/

/-- Settings matching the defaults of `app/core/config.py`:
`MAX_POSITION = 50.0`, `LONG_ONLY = True`, `ORDER_SIZE = 10.0`, first
allowed symbol `"BTC/CAD"`. -/
def cfg_ex : ExecSettings := ⟨50, true, 10, ["BTC/CAD"]⟩

/-- A tight book: bid 100.00 / ask 100.02, spread about 2 bps, inside the
3 bps ceiling. -/
def book_ex : Book := ⟨[(100, 1)], [(100.02, 1)]⟩

/-- The scenario book of the specification: bid 100.00 / ask 100.05,
spread about 5 bps. -/
def book_c9 : Book := ⟨[(100, 1)], [(100.05, 1)]⟩

/-- A buy signal for quantity 1. -/
def sig_buy1 : Signal := ⟨"BTC/CAD", .buy, 1, "momentum"⟩

/-- A buy signal with quantity 0. -/
def sig_zero : Signal := ⟨"BTC/CAD", .buy, 0, "noop"⟩

/-- A buy signal with negative quantity. -/
def sig_neg : Signal := ⟨"BTC/CAD", .buy, -1, "noop"⟩

/-- A sell signal for quantity 1. -/
def sig_sell1 : Signal := ⟨"BTC/CAD", .sell, 1, "exit"⟩

/-- A buy signal for quantity 10. -/
def sig_buy10 : Signal := ⟨"BTC/CAD", .buy, 10, "momentum"⟩

/-- A position book holding 49 units of every symbol (1 unit of headroom
under the default cap of 50). -/
def pos49 : Positions := fun _ => 49

/-! ### Helper lemmas about the book gate and the paper execution -/

/-- Inverting a successful `_book_mid_spread`: the mid is positive, the
spread is positive, and the buy-side post-only price `mid - 0.3*spr`
stays positive. -/
lemma book_mid_spread_some {ob : Book} {mid spr bps : ℚ}
    (h : book_mid_spread ob = some (mid, spr, bps)) :
    0 < mid ∧ 0 < spr ∧ POST_ONLY_K * spr < mid := by
  obtain ⟨bids, asks⟩ := ob
  rcases bids with _ | ⟨⟨bb, bsz⟩, bt⟩
  · exact Option.noConfusion h
  rcases asks with _ | ⟨⟨ba, asz⟩, tl⟩
  · exact Option.noConfusion h
  simp only [book_mid_spread] at h
  split_ifs at h with hcond
  · obtain ⟨hbb, hba, hlt⟩ := hcond
    have h' := Option.some.inj h
    have hmid : mid = (bb + ba) / 2 := (congrArg Prod.fst h').symm
    have hspr : spr = ba - bb := (congrArg Prod.fst (congrArg Prod.snd h')).symm
    have hk : POST_ONLY_K = 3 / 10 := by norm_num [POST_ONLY_K]
    subst hmid hspr
    rw [hk]
    refine ⟨by linarith, by linarith, by linarith⟩

/-- The paper execution either skips (zero fill) or fills the full
requested quantity. -/
lemma execute_paper_filled_zero_or_qty (c : ℚ) (ob : Book) (side : Side)
    (qty : ℚ) :
    (execute_post_only_paper_with c ob side qty).filled = 0 ∨
    (execute_post_only_paper_with c ob side qty).filled = qty := by
  unfold execute_post_only_paper_with
  rcases h : book_mid_spread ob with _ | ⟨⟨mid, spr, bps⟩⟩
  · simp
  · simp only
    split_ifs <;> simp

/-- When the spread gate passes, the paper execution fills the full
requested quantity. -/
lemma execute_paper_filled_of_gate {ob : Book} (side : Side) (qty : ℚ)
    (h : spread_gate_passes ob = true) :
    (execute_post_only_paper ob side qty).filled = qty := by
  unfold execute_post_only_paper execute_post_only_paper_with
  unfold spread_gate_passes at h
  rcases hb : book_mid_spread ob with _ | ⟨⟨mid, spr, bps⟩⟩
  · rw [hb] at h; exact absurd h (by simp)
  · rw [hb] at h
    simp only [decide_eq_true_eq] at h
    simp only
    rw [if_neg (by exact not_lt.mpr h)]
    split_ifs <;> simp

/-- C10: In paper mode, for every order book that passes the spread gate
(0 < best bid < best ask, spread at most the ceiling in bps), the taker
branch of `_execute_post_only` is unreachable: the fill is full, maker,
fee-free, at the post-only limit `mid - 0.3*spread` (buy) respectively
`mid + 0.3*spread` (sell). -/
theorem paper_fill_always_maker (ob : Book) (side : Side) (qty mid spr bps : ℚ)
    (h : book_mid_spread ob = some (mid, spr, bps))
    (hle : bps ≤ MAX_SPREAD_BPS_EXEC) :
    execute_post_only_paper ob side qty =
      { filled := qty,
        avg_px := some (match side with
          | .buy => mid - 0.3 * spr
          | .sell => mid + 0.3 * spr),
        fees := 0, maker := true } := by
  obtain ⟨hmid, hspr, hk⟩ := book_mid_spread_some h
  have hk03 : POST_ONLY_K = (0.3 : ℚ) := rfl
  unfold execute_post_only_paper execute_post_only_paper_with
  rw [h]
  simp only
  rw [if_neg (not_lt.mpr hle)]
  cases side
  case buy =>
    have hmax : post_only_price .buy mid spr = mid - POST_ONLY_K * spr := by
      unfold post_only_price
      exact max_eq_right (by linarith)
    rw [if_pos (Or.inl ⟨rfl, by rw [hmax, hk03]; norm_num; linarith⟩)]
    rw [hmax, hk03]
  case sell =>
    have hpx : post_only_price .sell mid spr = mid + POST_ONLY_K * spr := rfl
    rw [if_pos (Or.inr ⟨rfl, by rw [hpx, hk03]; norm_num; linarith⟩)]
    rw [hpx, hk03]

/-- C10 witness: the 2 bps book fills a buy of 2 as maker at the
post-only limit. -/
theorem paper_fill_always_maker_witness :
    execute_post_only_paper book_ex .buy 2 =
      { filled := 2, avg_px := some (100.01 - 0.3 * 0.02), fees := 0,
        maker := true } := by
  have h := paper_fill_always_maker book_ex .buy 2 100.01 0.02 (20000 / 10001)
    (by norm_num [book_mid_spread, book_ex])
    (by norm_num [MAX_SPREAD_BPS_EXEC])
  simpa using h

/-- C9 counterexample: the execution agent's spread ceiling is the
hard-coded constant 3 bps, and at that ceiling the specification's
scenario book (bid 100.00 / ask 100.05, about 5 bps) is skipped: the
result is a zero fill with no price, not a full maker fill between
100.00 and 100.025. -/
theorem scenario_book_skipped_at_source_ceiling :
    MAX_SPREAD_BPS_EXEC = 3 ∧
    execute_post_only_paper book_c9 .buy 1 =
      { filled := 0, avg_px := none, fees := 0, maker := true } := by
  constructor
  · rfl
  · norm_num [execute_post_only_paper, execute_post_only_paper_with,
      book_mid_spread, book_c9, MAX_SPREAD_BPS_EXEC]

/-- C9 amended: with the spread ceiling taken as 7 bps the scenario holds
as specified — the bid 100.00 / ask 100.05 book passes the gate and a buy
intent for quantity 1 fully fills with maker=true at the post-only limit
100.01, strictly between 100.00 and 100.025. -/
theorem scenario_fills_under_seven_bps_ceiling :
    execute_post_only_paper_with 7 book_c9 .buy 1 =
      { filled := 1, avg_px := some 100.01, fees := 0, maker := true } ∧
    (100 : ℚ) < 100.01 ∧ (100.01 : ℚ) < 100.025 := by
  refine ⟨?_, by norm_num, by norm_num⟩
  norm_num [execute_post_only_paper_with, book_mid_spread, book_c9,
    post_only_price, POST_ONLY_K]

/-- C2: applying a sell fill to the ledger adds
`(price - old_avg) * min(quantity, max(old_position, 0))` to the daily
realized PnL, sets the new position to `max(old_position - quantity, 0)`
(never net short), and resets the average entry price to 0 exactly when
the new position is 0. -/
theorem sell_fill_ledger_arithmetic (l : Ledger) (price qty : ℚ) :
    (applyFill l .sell price qty).realizedDay
        = l.realizedDay + (price - l.pos.avgEntry) * min qty (max l.pos.qty 0) ∧
    (applyFill l .sell price qty).pos.qty = max (l.pos.qty - qty) 0 ∧
    (applyFill l .sell price qty).pos.avgEntry
        = (if max (l.pos.qty - qty) 0 = 0 then 0 else l.pos.avgEntry) := by
  refine ⟨rfl, rfl, rfl⟩

/-- C5: with long-only mode on, a sell signal consumed while the engine's
position for its symbol is not positive is rejected before order
placement: the position book is unchanged and nothing reaches the
execution stage. -/
theorem long_only_sell_rejected (cfg : ExecSettings) (pos : Positions)
    (sig : Signal) (ob : Book) (hlo : cfg.longOnly = true)
    (hside : sig.side = .sell) (hpos : pos sig.symbol ≤ 0) :
    run_step cfg pos sig ob = (pos, StepResult.none) := by
  unfold run_step
  by_cases hmem : sig.symbol ∉ cfg.symbols
  · rw [if_pos hmem]
  · rw [if_neg hmem]
    dsimp only
    rw [if_pos ⟨hlo, hside, hpos⟩]

/-- C5 witness: a sell while flat under the default long-only settings is
a no-op. -/
theorem long_only_sell_rejected_witness :
    run_step cfg_ex init_positions sig_sell1 book_ex
      = (init_positions, StepResult.none) :=
  long_only_sell_rejected cfg_ex init_positions sig_sell1 book_ex rfl rfl
    (le_refl 0)

/-- C8 counterexample: after its loop raises a non-cancellation fault, a
worker's queryable status is `"stopped"` — exactly the status of a worker
that was never started — so no distinct `Errored` status is observable. -/
theorem crashed_status_equals_idle_status :
    agent_status (agent_after .fault) = "stopped" ∧
    agent_status idle_agent = "stopped" := ⟨rfl, rfl⟩

/-- C8 amended: a non-cancellation fault in a worker's run loop is caught
by `_run_wrapper` (logged, never re-raised to the caller of start/stop,
`_running` cleared), but the status query knows only `"running"` and
`"stopped"`: the crashed worker afterwards reports `"stopped"`, identical
to an idle worker. -/
theorem fault_contained_no_errored_status :
    (∀ o : RunOutcome, (run_wrapper o).raisedToCaller = false) ∧
    (run_wrapper .fault).loggedCrash = true ∧
    (∀ o : RunOutcome, (run_wrapper o).runningAfter = false) ∧
    (∀ a : AgentLifecycle,
      agent_status a = "running" ∨ agent_status a = "stopped") ∧
    agent_status (agent_after .fault) = agent_status idle_agent := by
  refine ⟨fun o => ?_, rfl, fun o => ?_, fun a => ?_, rfl⟩
  · cases o <;> rfl
  · cases o <;> rfl
  · unfold agent_status
    split_ifs
    · exact Or.inl rfl
    · exact Or.inr rfl

/-- C1 counterexample: from the initial state, after an operator enables
the kill switch, a consumed buy intent still places an order (the consume
loop never consults the gauge), even though the switch is — and stays —
true. -/
theorem order_placed_while_kill_switch_on :
    (sys_run cfg_ex init_system
      [.opSetKill true, .intent sig_buy1 book_ex]).2 = 1 ∧
    (sys_run cfg_ex init_system
      [.opSetKill true, .intent sig_buy1 book_ex]).1.kill = true := by
  constructor
  all_goals norm_num [sys_run, sys_step, init_system, run_step, cfg_ex,
    init_positions, sig_buy1, book_ex, execute_post_only_paper,
    execute_post_only_paper_with, book_mid_spread, post_only_price,
    POST_ONLY_K, MAX_SPREAD_BPS_EXEC, spread_gate_passes]
  all_goals simp

/-- C1 amended: the kill switch gates only the agent start endpoints
(409 when enabled); the Execution Engine's consume loop neither reads nor
writes the switch — consuming an intent leaves it unchanged (so once true
it stays true across fills until explicitly cleared), and the loop's
behaviour (positions and order placement) is identical whether the switch
is true or false. -/
theorem kill_switch_gates_start_only :
    api_agents_start_all true = Except.error 409 ∧
    api_agents_start_all false = Except.ok () ∧
    (∀ (cfg : ExecSettings) (st : SystemState) (sig : Signal) (ob : Book),
      (sys_step cfg st (.intent sig ob)).1.kill = st.kill) ∧
    (∀ (cfg : ExecSettings) (k₁ k₂ : Bool) (p : Positions) (sig : Signal)
      (ob : Book),
      (sys_step cfg ⟨k₁, p⟩ (.intent sig ob)).2
          = (sys_step cfg ⟨k₂, p⟩ (.intent sig ob)).2 ∧
      (sys_step cfg ⟨k₁, p⟩ (.intent sig ob)).1.positions
          = (sys_step cfg ⟨k₂, p⟩ (.intent sig ob)).1.positions) :=
  ⟨rfl, rfl, fun _ _ _ _ => rfl, fun _ _ _ _ _ _ => ⟨rfl, rfl⟩⟩

/-- C6 counterexample: an intent with quantity exactly 0 is not dropped —
`qty = float(sig.qty or order_size)` replaces the falsy 0 with the default
order size, so the executor places an order and the position moves from 0
to 10. -/
theorem zero_qty_intent_executed :
    (run_step cfg_ex init_positions sig_zero book_ex).1 "BTC/CAD" = 10 ∧
    (run_step cfg_ex init_positions sig_zero book_ex).2.placed = true := by
  constructor <;>
  · norm_num [run_step, cfg_ex, init_positions, sig_zero, book_ex,
      execute_post_only_paper, execute_post_only_paper_with,
      book_mid_spread, post_only_price, POST_ONLY_K, MAX_SPREAD_BPS_EXEC,
      spread_gate_passes, Function.update]
    simp

/-- C6 amended: a zero-quantity intent is coerced to the configured
default order size and acted on like any other intent, while a
negative-quantity intent reaches the execution stage but its simulated
fill is non-positive and is discarded: the position book is unchanged and
no error is raised. -/
theorem qty_zero_defaults_qty_negative_discarded :
    (∀ (cfg : ExecSettings) (pos : Positions) (sig : Signal) (ob : Book),
      sig.qty = 0 →
      run_step cfg pos sig ob
        = run_step cfg pos ⟨sig.symbol, sig.side, cfg.orderSize, sig.reason⟩
            ob) ∧
    (∀ (cfg : ExecSettings) (pos : Positions) (sig : Signal) (ob : Book),
      sig.qty < 0 → (run_step cfg pos sig ob).1 = pos) := by
  constructor
  · intro cfg pos sig ob hq
    have hq0 : (if sig.qty = 0 then cfg.orderSize else sig.qty)
        = (if cfg.orderSize = 0 then cfg.orderSize else cfg.orderSize) := by
      rw [if_pos hq, ite_self]
    unfold run_step
    dsimp only
    rw [hq0]
  · intro cfg pos sig ob hq
    unfold run_step
    dsimp only
    by_cases hmem : sig.symbol ∉ cfg.symbols
    · rw [if_pos hmem]
    rw [if_neg hmem]
    have hq0 : (if sig.qty = 0 then cfg.orderSize else sig.qty) = sig.qty :=
      if_neg (ne_of_lt hq)
    rw [hq0]
    by_cases hguard : cfg.longOnly = true ∧ sig.side = Side.sell ∧
        pos sig.symbol ≤ 0
    · rw [if_pos hguard]
    rw [if_neg hguard]
    by_cases hcap : sig.side = Side.buy ∧
        pos sig.symbol + sig.qty > cfg.maxPosition
    · simp only [if_pos hcap]
      rw [if_pos ⟨hcap, max_le (le_refl 0) (by linarith [hcap.2])⟩]
    · simp only [if_neg hcap]
      rw [if_neg (fun hand => hcap hand.1)]
      have hfilled : (execute_post_only_paper ob sig.side sig.qty).filled
          ≤ 0 := by
        unfold execute_post_only_paper
        rcases execute_paper_filled_zero_or_qty MAX_SPREAD_BPS_EXEC ob
          sig.side sig.qty with hf | hf
        · rw [hf]
        · rw [hf]; exact le_of_lt hq
      rw [if_pos hfilled]

/-- C6 amended witness: the zero-quantity intent behaves exactly like the
default-size intent, and the negative-quantity intent leaves the position
book untouched. -/
theorem qty_zero_defaults_qty_negative_discarded_witness :
    run_step cfg_ex init_positions sig_zero book_ex
      = run_step cfg_ex init_positions ⟨"BTC/CAD", .buy, 10, "noop"⟩ book_ex ∧
    (run_step cfg_ex init_positions sig_neg book_ex).1 = init_positions :=
  ⟨qty_zero_defaults_qty_negative_discarded.1 cfg_ex init_positions sig_zero
      book_ex rfl,
    qty_zero_defaults_qty_negative_discarded.2 cfg_ex init_positions sig_neg
      book_ex (by norm_num [sig_neg])⟩

/-- Publishing a list of signals appends it, in order, to every
subscriber queue. -/
lemma publishAll_subs (sigs : List Signal) : ∀ bus : SignalBus,
    (SignalBus.publishAll bus sigs).subs
      = bus.subs.map (fun q => q ++ sigs) := by
  induction sigs with
  | nil => intro bus; simp [SignalBus.publishAll]
  | cons s t ih =>
      intro bus
      show (SignalBus.publishAll (bus.publishQ s) t).subs = _
      rw [ih]
      simp [SignalBus.publishQ, List.map_map, Function.comp,
        List.append_assoc]

/-- C7 counterexample: subscriber queues are not bounded — for every
candidate capacity there is a publish sequence whose undrained queue
exceeds it, so no overflow/drop-oldest behaviour exists to observe. -/
theorem bus_queue_not_bounded :
    ¬ ∃ c : ℕ, ∀ sigs : List Signal,
      ∀ q ∈ (SignalBus.publishAll ⟨[[]]⟩ sigs).subs, q.length ≤ c := by
  rintro ⟨c, hc⟩
  have h := hc (List.replicate (c + 1) sig_buy1)
    ([] ++ List.replicate (c + 1) sig_buy1)
    (by rw [publishAll_subs]; simp)
  simp at h

/-- C7 amended: publishing appends each intent, in publish order, to every
subscriber queue, and a subscriber that registered before the sequence
receives exactly the published list (nothing reordered, nothing dropped);
the queues are unbounded `asyncio.Queue`s, so no capacity bound and no
drop-oldest overflow policy exists. -/
theorem bus_fifo_delivery_unbounded_queue :
    (∀ (bus : SignalBus) (sigs : List Signal),
      (SignalBus.publishAll bus sigs).subs
        = bus.subs.map (fun q => q ++ sigs)) ∧
    (∀ (bus : SignalBus) (sigs : List Signal),
      (SignalBus.publishAll bus.subscribeQ sigs).subs.getLast?
        = some sigs) := by
  refine ⟨fun bus sigs => publishAll_subs sigs bus, fun bus sigs => ?_⟩
  rw [publishAll_subs]
  simp [SignalBus.subscribeQ]

/-! ### Ledger buy arithmetic (for the VWAP claim) -/

lemma totalQty_cons (f : ℚ × ℚ) (t : List (ℚ × ℚ)) :
    totalQty (f :: t) = f.2 + totalQty t := by
  simp [totalQty]

lemma totalNotional_cons (f : ℚ × ℚ) (t : List (ℚ × ℚ)) :
    totalNotional (f :: t) = f.1 * f.2 + totalNotional t := by
  simp [totalNotional]

lemma totalQty_nonneg {fs : List (ℚ × ℚ)} (h : ∀ f ∈ fs, 0 < f.2) :
    0 ≤ totalQty fs := by
  induction fs with
  | nil => simp [totalQty]
  | cons f t ih =>
      rw [totalQty_cons]
      have hf := h f (List.mem_cons_self f t)
      have ht := ih (fun g hg => h g (List.mem_cons_of_mem f hg))
      linarith

lemma totalQty_pos {fs : List (ℚ × ℚ)} (h : ∀ f ∈ fs, 0 < f.2)
    (hne : fs ≠ []) : 0 < totalQty fs := by
  cases fs with
  | nil => exact absurd rfl hne
  | cons f t =>
      rw [totalQty_cons]
      have hf := h f (List.mem_cons_self f t)
      have ht := totalQty_nonneg (fun g hg => h g (List.mem_cons_of_mem f hg))
      linarith

/-- Closed form of a run of buy fills: the quantity accumulates and the
average entry price is the quantity-weighted mean of the prior average
and the fills. -/
lemma applyBuys_formula (fs : List (ℚ × ℚ)) : ∀ p : PortfolioPos,
    (∀ f ∈ fs, 0 < f.2) → 0 ≤ p.qty → 0 < p.qty + totalQty fs →
    (applyBuys p fs).qty = p.qty + totalQty fs ∧
    (applyBuys p fs).avgEntry
      = (p.avgEntry * p.qty + totalNotional fs) / (p.qty + totalQty fs) := by
  induction fs with
  | nil =>
      intro p _ _ hpos
      have hq : p.qty ≠ 0 := by
        simp only [totalQty, List.map_nil, List.sum_nil, add_zero] at hpos
        exact ne_of_gt hpos
      constructor
      · simp [applyBuys, totalQty]
      · simp only [applyBuys, List.foldl_nil, totalNotional, List.map_nil,
          List.sum_nil, add_zero, totalQty]
        rw [mul_div_assoc, div_self hq, mul_one]
  | cons f t ih =>
      intro p hall hq hpos
      have hfpos : 0 < f.2 := hall f (List.mem_cons_self f t)
      have htq := totalQty_nonneg
        (fun g hg => hall g (List.mem_cons_of_mem f hg))
      have hQq : 0 < p.qty + f.2 := by linarith
      have happ : applyFillBuy p f.1 f.2 =
          ⟨p.qty + f.2,
            (p.avgEntry * p.qty + f.1 * f.2) / (p.qty + f.2)⟩ := by
        unfold applyFillBuy
        dsimp only
        rw [if_neg (ne_of_gt hQq)]
      have hstep : applyBuys p (f :: t) = applyBuys (applyFillBuy p f.1 f.2) t :=
        rfl
      obtain ⟨ihq, iha⟩ := ih (applyFillBuy p f.1 f.2)
        (fun g hg => hall g (List.mem_cons_of_mem f hg))
        (by rw [happ]; exact le_of_lt hQq)
        (by rw [happ]; dsimp only; rw [totalQty_cons] at hpos; linarith)
      constructor
      · rw [hstep, ihq, happ, totalQty_cons]
        dsimp only
        ring
      · rw [hstep, iha, happ]
        dsimp only
        have hcancel : (p.avgEntry * p.qty + f.1 * f.2) / (p.qty + f.2)
            * (p.qty + f.2) = p.avgEntry * p.qty + f.1 * f.2 :=
          div_mul_cancel₀ _ (ne_of_gt hQq)
        rw [hcancel, totalQty_cons, totalNotional_cons]
        congr 1 <;> ring

/-- A batch of buys collapses to a single buy at the batch's
volume-weighted price and total quantity. -/
lemma applyBuys_group (g : List (ℚ × ℚ)) (p : PortfolioPos) (hg : g ≠ [])
    (hall : ∀ f ∈ g, 0 < f.2) (hp : 0 ≤ p.qty) :
    applyFillBuy p (combineFills g).1 (combineFills g).2 = applyBuys p g := by
  have hT : 0 < totalQty g := totalQty_pos hall hg
  obtain ⟨hq, ha⟩ := applyBuys_formula g p hall hp (by linarith)
  have heta : applyBuys p g =
      (⟨(applyBuys p g).qty, (applyBuys p g).avgEntry⟩ : PortfolioPos) := rfl
  rw [heta, hq, ha]
  unfold combineFills applyFillBuy
  dsimp only
  rw [if_neg (by intro h; exact absurd h (by intro h2; linarith))]
  rw [div_mul_cancel₀ _ (ne_of_gt hT)]

/-- Applying a concatenation of fill lists is sequential application. -/
lemma applyBuys_append (p : PortfolioPos) (l₁ l₂ : List (ℚ × ℚ)) :
    applyBuys p (l₁ ++ l₂) = applyBuys (applyBuys p l₁) l₂ := by
  simp [applyBuys, List.foldl_append]

/-- Batching invariance: applying per-group combined fills equals applying
all underlying fills one at a time. -/
lemma applyBuys_grouped (gs : List (List (ℚ × ℚ))) : ∀ p : PortfolioPos,
    (∀ g ∈ gs, g ≠ []) → (∀ g ∈ gs, ∀ f ∈ g, 0 < f.2) → 0 ≤ p.qty →
    applyBuys p (gs.map combineFills) = applyBuys p gs.flatten := by
  induction gs with
  | nil => intro p _ _ _; rfl
  | cons g t ih =>
      intro p hne hall hp
      have hgne := hne g (List.mem_cons_self g t)
      have hgall := hall g (List.mem_cons_self g t)
      have hstep : applyBuys p ((g :: t).map combineFills)
          = applyBuys (applyFillBuy p (combineFills g).1 (combineFills g).2)
              (t.map combineFills) := rfl
      rw [hstep, applyBuys_group g p hgne hgall hp]
      have hjoin : (g :: t).flatten = g ++ t.flatten := rfl
      rw [hjoin, applyBuys_append]
      have hT : 0 < totalQty g := totalQty_pos hgall hgne
      obtain ⟨hq, _⟩ := applyBuys_formula g p hgall hp (by linarith)
      exact ih (applyBuys p g)
        (fun g2 hg2 => hne g2 (List.mem_cons_of_mem g hg2))
        (fun g2 hg2 => hall g2 (List.mem_cons_of_mem g hg2))
        (by rw [hq]; linarith)

/-- C3: starting flat, a sequence of positive-quantity buy fills leaves
the average entry price at the volume-weighted mean of the fill prices
(and the position at the total quantity), and the result is invariant
under batching: applying each group of fills as one grouped
weighted-average fill yields the same ledger state as applying the fills
one at a time. -/
theorem buy_fills_vwap_and_batching (fs : List (ℚ × ℚ))
    (gs : List (List (ℚ × ℚ)))
    (hfs : ∀ f ∈ fs, 0 < f.2) (hne : fs ≠ [])
    (hg : ∀ g ∈ gs, g ≠ []) (hgf : ∀ g ∈ gs, ∀ f ∈ g, 0 < f.2) :
    (applyBuys flat_pos fs).avgEntry = totalNotional fs / totalQty fs ∧
    (applyBuys flat_pos fs).qty = totalQty fs ∧
    applyBuys flat_pos (gs.map combineFills) = applyBuys flat_pos gs.flatten := by
  have hT := totalQty_pos hfs hne
  obtain ⟨hq, ha⟩ := applyBuys_formula fs flat_pos hfs (le_refl 0)
    (by simpa [flat_pos] using hT)
  refine ⟨?_, ?_, applyBuys_grouped gs flat_pos hg hgf (le_refl 0)⟩
  · rw [ha]; simp [flat_pos]
  · rw [hq]; simp [flat_pos]

/-- C3 witness: two fills of 2 units at 10 and 30 average to 20 = 80/4,
and batching them as two singleton groups gives the same state as the
flat sequence. -/
theorem buy_fills_vwap_and_batching_witness :
    (applyBuys flat_pos [(10, 2), (30, 2)]).avgEntry
        = totalNotional [(10, 2), (30, 2)] / totalQty [(10, 2), (30, 2)] ∧
    (applyBuys flat_pos [(10, 2), (30, 2)]).qty
        = totalQty [(10, 2), (30, 2)] ∧
    applyBuys flat_pos ([[(10, 2)], [(30, 2)]].map combineFills)
        = applyBuys flat_pos [[(10, 2)], [(30, 2)]].flatten :=
  buy_fills_vwap_and_batching [(10, 2), (30, 2)] [[(10, 2)], [(30, 2)]]
    (by norm_num) (by simp) (by norm_num) (by norm_num)

/-! ### Position cap -/

/-- One consume-loop iteration preserves the per-symbol position cap. -/
lemma run_step_preserves_cap (cfg : ExecSettings) (pos : Positions)
    (sig : Signal) (ob : Book)
    (hinv : ∀ s, pos s ≤ cfg.maxPosition) :
    ∀ s, (run_step cfg pos sig ob).1 s ≤ cfg.maxPosition := by
  intro s
  unfold run_step
  dsimp only
  by_cases hmem : sig.symbol ∉ cfg.symbols
  · rw [if_pos hmem]; exact hinv s
  rw [if_neg hmem]
  by_cases hguard : cfg.longOnly = true ∧ sig.side = Side.sell ∧
      pos sig.symbol ≤ 0
  · rw [if_pos hguard]; exact hinv s
  rw [if_neg hguard]
  by_cases hcap : sig.side = Side.buy ∧
      pos sig.symbol + (if sig.qty = 0 then cfg.orderSize else sig.qty)
        > cfg.maxPosition
  · simp only [if_pos hcap]
    by_cases hsk : max 0 (cfg.maxPosition - pos sig.symbol) ≤ 0
    · rw [if_pos ⟨hcap, hsk⟩]; exact hinv s
    rw [if_neg (fun hand => hsk hand.2)]
    by_cases hf : (execute_post_only_paper ob sig.side
        (max 0 (cfg.maxPosition - pos sig.symbol))).filled ≤ 0
    · rw [if_pos hf]; exact hinv s
    rw [if_neg hf]
    simp only [hcap.1]
    rcases eq_or_ne s sig.symbol with rfl | hne
    · rw [Function.update_same]
      have hx : 0 < cfg.maxPosition - pos sig.symbol := by
        by_contra hx
        push_neg at hx
        exact hsk (max_le (le_refl 0) hx)
      rw [max_eq_right (le_of_lt hx)]
      linarith
    · rw [Function.update_noteq hne]; exact hinv s
  · simp only [if_neg hcap]
    rw [if_neg (fun hand => hcap hand.1)]
    by_cases hf : (execute_post_only_paper ob sig.side
        (if sig.qty = 0 then cfg.orderSize else sig.qty)).filled ≤ 0
    · rw [if_pos hf]; exact hinv s
    rw [if_neg hf]
    have hfq : (execute_post_only_paper ob sig.side
        (if sig.qty = 0 then cfg.orderSize else sig.qty)).filled
          = (if sig.qty = 0 then cfg.orderSize else sig.qty) := by
      rcases execute_paper_filled_zero_or_qty MAX_SPREAD_BPS_EXEC ob sig.side
        (if sig.qty = 0 then cfg.orderSize else sig.qty) with h0 | h0
      · exact absurd (le_of_eq h0) hf
      · exact h0
    have hq0pos : 0 < (if sig.qty = 0 then cfg.orderSize else sig.qty) := by
      push_neg at hf
      rw [hfq] at hf
      exact hf
    rcases hside : sig.side with _ | _
    · have hle : pos sig.symbol +
          (if sig.qty = 0 then cfg.orderSize else sig.qty)
            ≤ cfg.maxPosition := by
        by_contra hgt
        push_neg at hgt
        exact hcap ⟨hside, hgt⟩
      simp only [hside]
      rcases eq_or_ne s sig.symbol with rfl | hne
      · rw [Function.update_same]; linarith
      · rw [Function.update_noteq hne]; exact hinv s
    · simp only [hside]
      rcases eq_or_ne s sig.symbol with rfl | hne
      · rw [Function.update_same]
        have := hinv sig.symbol
        linarith
      · rw [Function.update_noteq hne]; exact hinv s

/-- The cap is preserved along any run of the consume loop. -/
lemma run_steps_cap (cfg : ExecSettings) (evs : List (Signal × Book)) :
    ∀ pos : Positions, (∀ s, pos s ≤ cfg.maxPosition) →
    ∀ s, run_steps cfg pos evs s ≤ cfg.maxPosition := by
  induction evs with
  | nil => intro pos h s; exact h s
  | cons e t ih =>
      intro pos h s
      exact ih (run_step cfg pos e.1 e.2).1
        (run_step_preserves_cap cfg pos e.1 e.2 h) s

/-- C4: with a non-negative configured cap, (i) every position reachable
by the consume loop from the flat initial book stays at or below the
cap, and (ii) a consumed buy intent whose quantity would push the
position above the cap is clipped to exactly the remaining headroom —
rejected outright with nothing placed when the headroom is ≤ 0,
otherwise executed for exactly the headroom quantity, which (when the
spread gate lets the order fill) lands the position exactly at the
cap. -/
theorem position_cap_enforced (cfg : ExecSettings)
    (hmax : 0 ≤ cfg.maxPosition) :
    (∀ (evs : List (Signal × Book)) (s : String),
      run_steps cfg init_positions evs s ≤ cfg.maxPosition) ∧
    (∀ (pos : Positions) (sig : Signal) (ob : Book),
      sig.symbol ∈ cfg.symbols → sig.side = Side.buy →
      cfg.maxPosition
          < pos sig.symbol + (if sig.qty = 0 then cfg.orderSize else sig.qty) →
      (cfg.maxPosition - pos sig.symbol ≤ 0 →
        run_step cfg pos sig ob = (pos, StepResult.none)) ∧
      (0 < cfg.maxPosition - pos sig.symbol →
        (run_step cfg pos sig ob).2.fill
            = some (execute_post_only_paper ob .buy
                (cfg.maxPosition - pos sig.symbol)) ∧
        (spread_gate_passes ob = true →
          (run_step cfg pos sig ob).1 sig.symbol = cfg.maxPosition))) := by
  constructor
  · intro evs s
    exact run_steps_cap cfg evs init_positions
      (fun s2 => by simpa [init_positions] using hmax) s
  · intro pos sig ob hmem hside hgt
    have hcap : sig.side = Side.buy ∧
        pos sig.symbol + (if sig.qty = 0 then cfg.orderSize else sig.qty)
          > cfg.maxPosition := ⟨hside, hgt⟩
    have hguard : ¬(cfg.longOnly = true ∧ sig.side = Side.sell ∧
        pos sig.symbol ≤ 0) := by
      rintro ⟨_, hsell, _⟩
      rw [hside] at hsell
      exact Side.noConfusion hsell
    constructor
    · intro hle0
      unfold run_step
      dsimp only
      rw [if_neg (fun h => h hmem), if_neg hguard]
      simp only [if_pos hcap]
      rw [if_pos ⟨hcap, max_le (le_refl 0) hle0⟩]
    · intro hx
      have hmaxr : max 0 (cfg.maxPosition - pos sig.symbol)
          = cfg.maxPosition - pos sig.symbol := max_eq_right (le_of_lt hx)
      unfold run_step
      dsimp only
      rw [if_neg (fun h => h hmem), if_neg hguard]
      simp only [if_pos hcap, hmaxr]
      rw [if_neg (fun hand => absurd hx (not_lt.mpr hand.2))]
      constructor
      · simp only [hside]
        by_cases hf : (execute_post_only_paper ob Side.buy
            (cfg.maxPosition - pos sig.symbol)).filled ≤ 0
        · rw [if_pos hf]
        · rw [if_neg hf]
      · intro hgate
        have hfq := execute_paper_filled_of_gate sig.side
          (cfg.maxPosition - pos sig.symbol) hgate
        rw [if_neg (by rw [hfq]; exact not_le.mpr hx)]
        simp only [hside]
        rw [Function.update_same]
        ring

/-- C4 witness: one buy from flat stays under the default cap of 50, and
a buy of 10 with the book at 49 is clipped to the single unit of
headroom, landing the position exactly at the cap. -/
theorem position_cap_enforced_witness :
    run_steps cfg_ex init_positions [(sig_buy1, book_ex)] "BTC/CAD"
        ≤ cfg_ex.maxPosition ∧
    (run_step cfg_ex pos49 sig_buy10 book_ex).1 "BTC/CAD"
        = cfg_ex.maxPosition := by
  have h := position_cap_enforced cfg_ex (by norm_num [cfg_ex])
  refine ⟨h.1 [(sig_buy1, book_ex)] "BTC/CAD", ?_⟩
  have h2 := (h.2 pos49 sig_buy10 book_ex (by simp [cfg_ex, sig_buy10]) rfl
    (by norm_num [cfg_ex, pos49, sig_buy10])).2
    (by norm_num [cfg_ex, pos49])
  exact h2.2 (by norm_num [spread_gate_passes, book_mid_spread, book_ex,
    MAX_SPREAD_BPS_EXEC])

end CryptoAgents
